import Mathlib

/-!
Shallow embedding of the rule-based repository scanning engine
(`backend/ai engine/repository_scanner.py`) and proofs about it.

File contents are modelled as `List Char`; Python string positions are
character indices.  The Python `re` module is external to the repository, so
the scanner is parameterised by a `ReOracle` describing the behaviour of the
compiled regular expressions; the literal-string fallback path
(`re.escape(pattern)` with `re.IGNORECASE`) is fully embedded as `litFind`.
-/

namespace RepoScanner

/-- Lower-case a character sequence (Python `str.lower` on ASCII data). -/
def lowerL (l : List Char) : List Char := l.map Char.toLower

/-- Lower-case a string. -/
def lowerS (s : String) : String := ⟨lowerL s.data⟩

/-- Case-insensitive: `pat` matches at the head of `s`. -/
def ciStarts (pat s : List Char) : Bool :=
  (lowerL pat).isPrefixOf (lowerL s)

/-- All start indices at which `needle` occurs in `hay`
(Python `needle in hay` is nonemptiness, `hay.rfind(needle)` the last one). -/
def occIdx (needle hay : List Char) : List ℕ :=
  (List.range (hay.length + 1)).filter fun i => needle.isPrefixOf (hay.drop i)

/-- Python `needle in hay` on strings. -/
def listContains (needle hay : List Char) : Bool :=
  !(occIdx needle hay).isEmpty

/-- Python `str.strip()`: remove leading and trailing whitespace. -/
def strip (l : List Char) : List Char :=
  ((l.dropWhile Char.isWhitespace).reverse.dropWhile Char.isWhitespace).reverse

/-- Python `content.split('\n')`. -/
def splitNl : List Char → List (List Char)
  | [] => [[]]
  | c :: cs =>
    if c = '\n' then [] :: splitNl cs
    else
      match splitNl cs with
      | [] => [[c]]
      | l :: ls => (c :: l) :: ls

/-- Python `enumerate(lines, n)`. -/
def enumLines : ℕ → List (List Char) → List (ℕ × List Char)
  | _, [] => []
  | n, l :: ls => (n, l) :: enumLines (n + 1) ls

/-- Greedy left-to-right selection of non-overlapping match start positions,
mirroring `finditer` on a fixed-length (literal) pattern: a candidate
position is kept iff it does not overlap the previously kept match. -/
def greedySelect (len : ℕ) : List ℕ → ℕ → List ℕ
  | [], _ => []
  | p :: ps, minPos =>
    if p < minPos then greedySelect len ps minPos
    else p :: greedySelect len ps (p + len)

/-- `re.finditer` of `re.escape(pat)` with `re.IGNORECASE` over one line:
the non-overlapping case-insensitive literal occurrences of `pat`, as
`(start, end)` spans.  An empty pattern matches the empty string at every
position, as in Python. -/
def litFind (pat line : List Char) : List (ℕ × ℕ) :=
  match pat with
  | [] => (List.range (line.length + 1)).map fun i => (i, i)
  | _ :: _ =>
    (greedySelect pat.length
      ((List.range (line.length + 1)).filter fun i => ciStarts pat (line.drop i))
      0).map fun s => (s, s + pat.length)

/-- The comment markers of `_is_in_comment`. -/
def commentMarkers : List (List Char) :=
  [['#'], ['/', '/'], ['/', '*'], ['*'], ['<', '!', '-', '-']]

/-- `_is_in_comment`: take the part of the line before the match position;
for each marker, if it occurs there, its rightmost occurrence is compared
with the position. -/
def isInComment (line : List Char) (position : ℕ) : Bool :=
  let pre := line.take position
  commentMarkers.any fun m =>
    match (occIdx m pre).getLast? with
    | some mp => decide (mp < position)
    | none => false

/-- A single-quote character, used in analyzer messages. -/
def squote : String := String.singleton (Char.ofNat 39)

/-- `_generate_suggestion`: fixed lookup table keyed by the lower-cased
pattern, with a generic fallback. -/
def generateSuggestion (pattern category : String) : String :=
  let k := lowerS pattern
  if k = "password" then "Use environment variables or secure credential management"
  else if k = "pwd" then "Use environment variables or secure credential management"
  else if k = "passwd" then "Use environment variables or secure credential management"
  else if k = "personal_data" then "Implement proper data protection measures (encryption, access controls)"
  else if k = "pii" then "Handle personally identifiable information according to privacy regulations"
  else if k = "sensitive" then "Apply appropriate security controls for sensitive data"
  else if k = "log" then "Ensure audit logging includes necessary compliance information"
  else if k = "audit" then "Implement comprehensive audit trails for compliance"
  else if k = "auth" then "Use secure authentication mechanisms"
  else if k = "token" then "Implement secure token management practices"
  else "Review " ++ category ++ " compliance requirements"

/-- A violation record.  The Python code builds dictionaries with different
key sets depending on the producing analyzer; each constructor mirrors one
shape (`pattern` matches, function-analysis hits, import-analysis hits, and
the synthetic scan-error record of `scan_repository`). -/
inductive Violation where
  | patternV (rid fp : String) (lineNum colStart colEnd : ℕ)
      (matched lineContent : List Char) (cat sev desc sugg : String)
  | funcV (rid fp fname cat sev desc sugg : String)
  | impV (rid fp module cat sev desc sugg : String)
  | scanErrorV (fp message sev : String)
  deriving DecidableEq

/-- `v.get("severity", "LOW")` — every constructor carries a severity. -/
def Violation.severity : Violation → String
  | .patternV _ _ _ _ _ _ _ _ s _ _ => s
  | .funcV _ _ _ _ s _ _ => s
  | .impV _ _ _ _ s _ _ => s
  | .scanErrorV _ _ s => s

/-- `v.get("category", "unknown")` — the scan-error record has no category. -/
def Violation.category : Violation → String
  | .patternV _ _ _ _ _ _ _ c _ _ _ => c
  | .funcV _ _ _ c _ _ _ => c
  | .impV _ _ _ c _ _ _ => c
  | .scanErrorV _ _ _ => "unknown"

/-- `v.get("file_path")` — every constructor carries a file path. -/
def Violation.file_path : Violation → String
  | .patternV _ f _ _ _ _ _ _ _ _ _ => f
  | .funcV _ f _ _ _ _ _ => f
  | .impV _ f _ _ _ _ _ => f
  | .scanErrorV f _ _ => f

/-- `line_number` of a pattern violation (0 for the other shapes, which
carry no such key). -/
def Violation.line_number : Violation → ℕ
  | .patternV _ _ n _ _ _ _ _ _ _ _ => n
  | _ => 0

/-- `column_start` of a pattern violation. -/
def Violation.column_start : Violation → ℕ
  | .patternV _ _ _ s _ _ _ _ _ _ _ => s
  | _ => 0

/-- `column_end` of a pattern violation. -/
def Violation.column_end : Violation → ℕ
  | .patternV _ _ _ _ e _ _ _ _ _ _ => e
  | _ => 0

/-- `matched_text` of a pattern violation. -/
def Violation.matched_text : Violation → List Char
  | .patternV _ _ _ _ _ m _ _ _ _ _ => m
  | _ => []

/-- Whether the record is the synthetic `"scan_error"` violation. -/
def Violation.isScanError : Violation → Bool
  | .scanErrorV _ _ _ => true
  | _ => false

/-- A compliance rule as consumed by the scanner (the dictionary fields it
reads, with `check_type` flattened out of `compliance_check`). -/
structure Rule where
  rule_id : String
  description : String
  category : String
  severity : String
  scan_patterns : List String
  check_type : String
  deriving DecidableEq

/-- Behaviour of the external `re` module on the pattern strings of the
active rules: whether `re.compile(p)` succeeds, the spans `finditer` yields
per line for a successfully compiled pattern, and the captured group-1 names
the function-analysis and import-analysis regexes yield on a file content. -/
structure ReOracle where
  compiles : String → Bool
  spans : String → List Char → List (ℕ × ℕ)
  funcNames : List Char → List String
  impNames : List Char → List String

/-- The violation record built for one surviving pattern match. -/
def mkPatternViolation (fp rid cat sev desc pattern : String)
    (lineNum : ℕ) (line : List Char) (s e : ℕ) : Violation :=
  .patternV rid fp lineNum s e ((line.take e).drop s) (strip line)
    cat sev desc (generateSuggestion pattern cat)

/-- Core loop of `_find_pattern_violations`, parameterised by the per-line
matcher: enumerate the lines from 1, run the matcher, drop matches that
`_is_in_comment` flags, and build a violation for each survivor. -/
def findPatternViolationsM (matcher : List Char → List (ℕ × ℕ))
    (content : List Char) (fp pattern rid cat sev desc : String) : List Violation :=
  (enumLines 1 (splitNl content)).flatMap fun p =>
    (matcher p.2).filterMap fun se =>
      if isInComment p.2 se.1 then none
      else some (mkPatternViolation fp rid cat sev desc pattern p.1 p.2 se.1 se.2)

/-- `_find_pattern_violations`: compile the pattern case-insensitively; on a
`re.error` fall back to the escaped literal (embedded as `litFind`). -/
def findPatternViolations (o : ReOracle) (content : List Char)
    (fp pattern rid cat sev desc : String) : List Violation :=
  findPatternViolationsM
    (if o.compiles pattern then o.spans pattern else fun line => litFind pattern.data line)
    content fp pattern rid cat sev desc

/-- The sensitive-keyword list of `_analyze_functions`. -/
def sensitiveKeywords : List String := ["auth", "login", "password", "data", "user"]

/-- `_analyze_functions`, given the function names captured by the three
function-definition regexes: keep the names containing a sensitive keyword
and emit a MEDIUM violation for each. -/
def analyzeFunctions (names : List String) (fp : String) (rule : Rule) : List Violation :=
  names.filterMap fun fn =>
    if sensitiveKeywords.any (fun k => listContains k.data (lowerL fn.data)) then
      some (.funcV rule.rule_id fp fn rule.category "MEDIUM"
        ("Function " ++ squote ++ fn ++ squote ++ " may require compliance review")
        "Review function for compliance with security/privacy requirements")
    else none

/-- The risky-import list of `_analyze_imports`. -/
def riskyImports : List String :=
  ["subprocess", "os.system", "eval", "exec", "crypto", "hashlib", "ssl",
   "requests", "urllib", "sqlite3", "mysql", "postgresql"]

/-- `_analyze_imports`, given the module names captured by the import
regexes: keep the risky ones and emit a LOW, security-category violation. -/
def analyzeImports (names : List String) (fp : String) (rule : Rule) : List Violation :=
  names.filterMap fun m =>
    if riskyImports.any (fun r => listContains r.data (lowerL m.data)) then
      some (.impV rule.rule_id fp m "security" "LOW"
        ("Import " ++ squote ++ m ++ squote ++ " may require security review")
        "Ensure secure usage of imported module")
    else none

/-- The pattern-scanning part of `_apply_rule_to_file`: every pattern of the
rule is run through `_find_pattern_violations`. -/
def patternScan (o : ReOracle) (content : List Char) (fp : String) (rule : Rule) :
    List Violation :=
  rule.scan_patterns.flatMap fun p =>
    findPatternViolations o content fp p rule.rule_id rule.category rule.severity
      rule.description

/-- `_apply_rule_to_file`: pattern scanning always runs; the check type then
selects an additional analyzer (`pattern_match` and unknown types add
nothing). -/
def applyRuleToFile (o : ReOracle) (content : List Char) (fp : String) (rule : Rule) :
    List Violation :=
  patternScan o content fp rule ++
    (if rule.check_type = "pattern_match" then []
     else if rule.check_type = "function_analysis" then
       analyzeFunctions (o.funcNames content) fp rule
     else if rule.check_type = "import_analysis" then
       analyzeImports (o.impNames content) fp rule
     else [])

/-- Per-file result dictionary of `_scan_file` (the fields it populates). -/
structure FileResults where
  file_path : String
  file_size : ℕ
  line_count : ℕ
  violations : List Violation
  compliance_checks : List (String × ℕ × String)
  deriving DecidableEq

/-- A file of the scanned tree: directory components below the root, the
file name, and its content — `none` when the file cannot be opened or read
(`open` raises). -/
structure SFile where
  dirs : List String
  fname : String
  content : Option String
  deriving DecidableEq

/-- `str(file_path)` for a tree file. -/
def filePathOf (f : SFile) : String :=
  String.intercalate "/" (f.dirs ++ [f.fname])

/-- `_scan_file`: read the content and apply every rule; the surrounding
`try`/`except` catches the read failure and returns `None`, so an unreadable
file yields `none` here — no exception ever escapes to `scan_repository`. -/
def scanFile (o : ReOracle) (rules : List Rule) (f : SFile) : Option FileResults :=
  match f.content with
  | none => none
  | some content =>
    let cl := content.data
    let fp := filePathOf f
    some {
      file_path := fp
      file_size := cl.length
      line_count := (splitNl cl).length
      violations := rules.flatMap fun r => applyRuleToFile o cl fp r
      compliance_checks :=
        rules.map fun r => (r.rule_id, (applyRuleToFile o cl fp r).length, r.category) }

/-- The scanned tree: whether the root path exists, and the regular files
below it. -/
structure Filesystem where
  rootExists : Bool
  files : List SFile
  deriving DecidableEq

/-- A file is returned by `repo_path.rglob('*' + ext)` iff its name ends
with `ext`; `rglob` descends into every directory. -/
def endsWithExt (ext : String) (f : SFile) : Bool :=
  ext.data.isSuffixOf f.fname.data

/-- The `code_files` list of `scan_repository`: one `rglob` pass per
extension, concatenated. -/
def discoveredFiles (fs : Filesystem) (exts : List String) : List SFile :=
  exts.flatMap fun e => fs.files.filter (endsWithExt e)

/-- The default `file_extensions` list. -/
def defaultExtensions : List String :=
  [".py", ".js", ".ts", ".java", ".cpp", ".c", ".cs", ".php", ".rb", ".go"]

/-- The `severity_weights` dictionary lookup with default 1. -/
def severityWeight (s : String) : ℕ :=
  if s = "HIGH" then 3 else if s = "MEDIUM" then 2 else if s = "LOW" then 1 else 1

/-- `weighted_violations` of `_calculate_compliance_score`. -/
def weightedViolations (vs : List Violation) : ℕ :=
  (vs.map fun v => severityWeight v.severity).sum

/-- Python `round` to an integer: round half to even. -/
def roundHalfEven (q : ℚ) : ℤ :=
  let f := ⌊q⌋
  let r := q - f
  if r < 1 / 2 then f
  else if 1 / 2 < r then f + 1
  else if f % 2 = 0 then f else f + 1

/-- Python `round(x, 3)` on the exact rational value. -/
def round3 (q : ℚ) : ℚ := (roundHalfEven (q * 1000) : ℚ) / 1000

/-- `_calculate_compliance_score`: 0.0 when no file was scanned, otherwise
one minus the severity-weighted violation count over ten per scanned file,
clamped at zero and rounded to three decimals. -/
def calculateComplianceScore (violations : List Violation)
    (scanned : List FileResults) : ℚ :=
  if scanned.length = 0 then 0
  else round3 (max 0 (1 - (weightedViolations violations : ℚ) / (scanned.length * 10)))

/-- Python `counts[k] = counts.get(k, 0) + 1` on an insertion-ordered dict. -/
def bump (m : List (String × ℕ)) (k : String) : List (String × ℕ) :=
  if m.any (fun p => p.1 = k) then
    m.map fun p => if p.1 = k then (p.1, p.2 + 1) else p
  else m ++ [(k, 1)]

/-- Number of distinct strings in a list (Python `len(set(...))`). -/
def distinctCount (l : List String) : ℕ :=
  (l.foldl (fun acc a => if a ∈ acc then acc else acc ++ [a]) []).length

/-- The summary dictionary of `_calculate_scan_summary`. -/
structure ScanSummary where
  total_violations : ℕ
  severity_breakdown : List (String × ℕ)
  category_breakdown : List (String × ℕ)
  files_with_violations : ℕ
  total_files_scanned : ℕ
  violation_rate : ℚ
  deriving DecidableEq

/-- `_calculate_scan_summary`. -/
def calculateScanSummary (violations : List Violation) (scannedCount : ℕ) :
    ScanSummary :=
  { total_violations := violations.length
    severity_breakdown :=
      violations.foldl (fun m v => bump m v.severity) [("HIGH", 0), ("MEDIUM", 0), ("LOW", 0)]
    category_breakdown := violations.foldl (fun m v => bump m v.category) []
    files_with_violations := distinctCount (violations.map fun v => v.file_path)
    total_files_scanned := scannedCount
    violation_rate :=
      (distinctCount (violations.map fun v => v.file_path) : ℚ) / (max scannedCount 1) }

/-- The success dictionary of `scan_repository` (timing fields omitted). -/
structure ScanResults where
  repository_path : String
  scan_summary : ScanSummary
  violations : List Violation
  compliance_score : ℚ
  scanned_files : List FileResults
  rules_applied : ℕ
  deriving DecidableEq

/-- Outcome of `scan_repository`: either the full results, or — when the
outer `except` caught the failure — a dictionary holding only the path and
the error string (no violations, no summary, no score). -/
inductive ScanOutput where
  | success (r : ScanResults)
  | failure (repository_path error : String)
  deriving DecidableEq

/-- `scan_repository`.  A missing root raises `FileNotFoundError`, caught by
the outer `except`.  In the per-file loop, `_scan_file` is total (it returns
`None` on a read failure), so the loop's own `except` branch — the one that
would append a `"scan_error"` violation — can never fire; `None` results are
simply skipped. -/
def scanRepository (o : ReOracle) (rules : List Rule) (repoPath : String)
    (fs : Filesystem) (exts : List String) : ScanOutput :=
  if fs.rootExists then
    let scanned := (discoveredFiles fs exts).filterMap (scanFile o rules)
    let violations := scanned.flatMap fun fr => fr.violations
    .success {
      repository_path := repoPath
      scan_summary := calculateScanSummary violations scanned.length
      violations := violations
      compliance_score := calculateComplianceScore violations scanned
      scanned_files := scanned
      rules_applied := rules.length }
  else
    .failure repoPath ("Repository path not found: " ++ repoPath)

/-- The shape returned by the rule producer
(`get_compliance_rules_for_scanning`). -/
structure RulesData where
  rules : List Rule
  scan_patterns : List (String × List String)
  deriving DecidableEq

/-- The three rules of `_load_default_rules`. -/
def defaultComplianceRules : List Rule :=
  [{ rule_id := "security_001", description := "Passwords should not be hardcoded",
     category := "security", severity := "HIGH",
     scan_patterns := ["password", "pwd", "passwd"], check_type := "pattern_match" },
   { rule_id := "data_001", description := "Personal data handling requires proper protection",
     category := "data_protection", severity := "HIGH",
     scan_patterns := ["personal_data", "pii", "sensitive"], check_type := "pattern_match" },
   { rule_id := "logging_001", description := "Audit logging should be implemented",
     category := "compliance", severity := "MEDIUM",
     scan_patterns := ["log", "audit", "trace"], check_type := "pattern_match" }]

/-- The hardcoded `scan_patterns` index of `_load_default_rules`. -/
def defaultScanPatterns : List (String × List String) :=
  [("security", ["password", "pwd", "passwd", "auth", "token"]),
   ("data_protection", ["personal_data", "pii", "sensitive", "confidential"]),
   ("compliance", ["log", "audit", "trace", "record", "monitor"])]

/-- `_load_compliance_rules`: with a producer, use its rules and index
verbatim — there is no `try`/`except` here, so a producer failure
propagates; with no producer, fall back to the defaults. -/
def loadComplianceRules (producer : Option (Except String RulesData)) :
    Except String (List Rule × List (String × List String)) :=
  match producer with
  | some (.error e) => .error e
  | some (.ok d) => .ok (d.rules, d.scan_patterns)
  | none => .ok (defaultComplianceRules, defaultScanPatterns)

/-- Union of the `scan_patterns` of the default rules of one category. -/
def rulesUnionPatterns (cat : String) : List String :=
  (defaultComplianceRules.filter fun r => r.category = cat).flatMap fun r =>
    r.scan_patterns

/-- Concrete oracle for metacharacter-free pattern strings, on which the
compiled case-insensitive regex finds exactly the literal occurrences. -/
def litOracle : ReOracle :=
  { compiles := fun _ => true
    spans := fun p line => litFind p.data line
    funcNames := fun _ => []
    impNames := fun _ => [] }

/-- Oracle standing for a session whose pattern fails to compile
(`re.error`); the spans of the successfully-compiled branch are never
consulted. -/
def failOracle : ReOracle :=
  { compiles := fun _ => false
    spans := fun _ _ => []
    funcNames := fun _ => []
    impNames := fun _ => [] }

/-- Fixture: an unreadable file. -/
def badFile : SFile := ⟨[], "broken.py", none⟩

/-- Fixture: a readable file with one hardcoded-password hit. -/
def goodFile : SFile := ⟨[], "ok.py", some "password = 1"⟩

/-- Fixture tree with one unreadable and one readable file. -/
def c4fs : Filesystem := ⟨true, [badFile, goodFile]⟩

/-- Fixture: a file inside the `.git` metadata directory. -/
def gitFile : SFile := ⟨[".git", "hooks"], "pre.py", some "password = 1"⟩

/-- Fixture tree whose only file lies under `.git`. -/
def c5fs : Filesystem := ⟨true, [gitFile]⟩

/-- Fixture rule with an empty pattern list and the baseline check type. -/
def emptyRule : Rule :=
  ⟨"r_empty", "d", "security", "HIGH", [], "pattern_match"⟩

/-- Fixture rule requesting function analysis. -/
def funcRule : Rule :=
  ⟨"r_func", "d", "security", "HIGH", [], "function_analysis"⟩

/-- Fixture rule requesting import analysis. -/
def impRule : Rule :=
  ⟨"r_imp", "d", "compliance", "HIGH", [], "import_analysis"⟩

/-- Fixture violation of severity HIGH. -/
def vHigh : Violation := .funcV "r" "f" "login" "security" "HIGH" "d" "s"

/-- Fixture per-file result. -/
def oneFileResult : FileResults := ⟨"f", 0, 1, [], []⟩

/-- The violation `_analyze_functions` emits for `login_user` under
`funcRule`. -/
def funcViolation0 : Violation :=
  .funcV "r_func" "f.py" "login_user" "security" "MEDIUM"
    ("Function " ++ squote ++ "login_user" ++ squote ++ " may require compliance review")
    "Review function for compliance with security/privacy requirements"

/-- The violation `_analyze_imports` emits for `subprocess` under
`impRule`. -/
def impViolation0 : Violation :=
  .impV "r_imp" "f.py" "subprocess" "security" "LOW"
    ("Import " ++ squote ++ "subprocess" ++ squote ++ " may require security review")
    "Ensure secure usage of imported module"

/-- The violation the scanner reports for `password = "x"` under the
default hardcoded-password rule. -/
def pwViolation : Violation :=
  mkPatternViolation "f.py" "security_001" "security" "HIGH"
    "Passwords should not be hardcoded" "password" 1 "password = \"x\"".data 0 8

/-- The violation the scanner reports for `pwd = 1` under a small fixture
rule. -/
def pwdViolation : Violation :=
  mkPatternViolation "f.py" "r" "security" "HIGH" "d" "pwd" 1 "pwd = 1".data 0 3

/-! ### Helper lemmas -/

theorem mem_enumLines_iff {n i : ℕ} {line : List Char} {ls : List (List Char)} :
    (i, line) ∈ enumLines n ls ↔
      ∃ k, k < ls.length ∧ i = n + k ∧ ls.get? k = some line := by
  induction ls generalizing n with
  | nil => simp [enumLines]
  | cons l ls ih =>
    simp only [enumLines, List.mem_cons, ih]
    constructor
    · rintro (h | ⟨k, hk, h1, h2⟩)
      · obtain ⟨h1, h2⟩ := Prod.mk.injEq .. ▸ h
        exact ⟨0, by simp, by omega, by simp [h2.symm]⟩
      · exact ⟨k + 1, by simp; omega, by omega, by simpa using h2⟩
    · rintro ⟨k, hk, h1, h2⟩
      cases k with
      | zero =>
        left
        simp only [List.get?] at h2
        simp [Prod.ext_iff]
        exact ⟨by omega, (Option.some.injEq .. ▸ h2).symm⟩
      | succ k =>
        right
        exact ⟨k, by simpa using hk, by omega, by simpa using h2⟩

theorem mem_findPatternViolationsM {matcher : List Char → List (ℕ × ℕ)}
    {content : List Char} {fp pattern rid cat sev desc : String} {v : Violation} :
    v ∈ findPatternViolationsM matcher content fp pattern rid cat sev desc ↔
      ∃ i line s e, (i, line) ∈ enumLines 1 (splitNl content) ∧
        (s, e) ∈ matcher line ∧ isInComment line s = false ∧
        v = mkPatternViolation fp rid cat sev desc pattern i line s e := by
  unfold findPatternViolationsM
  rw [List.mem_flatMap]
  constructor
  · rintro ⟨⟨i, line⟩, hmem, hv⟩
    rw [List.mem_filterMap] at hv
    obtain ⟨⟨s, e⟩, hse, hf⟩ := hv
    by_cases hc : isInComment line s
    · simp [hc] at hf
    · simp only [hc, Bool.false_eq_true, if_false, Option.some.injEq] at hf
      exact ⟨i, line, s, e, hmem, hse, by simpa using hc, hf.symm⟩
  · rintro ⟨i, line, s, e, hmem, hse, hc, rfl⟩
    refine ⟨(i, line), hmem, ?_⟩
    rw [List.mem_filterMap]
    exact ⟨(s, e), hse, by simp [hc]⟩

theorem commentMarkers_ne_nil : ∀ m ∈ commentMarkers, m ≠ [] := by decide

theorem occIdx_mem {m hay : List Char} {i : ℕ} (h : i ∈ occIdx m hay) :
    i ≤ hay.length ∧ m.isPrefixOf (hay.drop i) = true := by
  unfold occIdx at h
  rw [List.mem_filter] at h
  obtain ⟨h1, h2⟩ := h
  rw [List.mem_range] at h1
  exact ⟨by omega, h2⟩

theorem occIdx_lt_length {m hay : List Char} {i : ℕ} (hm : m ≠ [])
    (h : i ∈ occIdx m hay) : i < hay.length := by
  obtain ⟨h1, h2⟩ := occIdx_mem h
  rw [List.isPrefixOf_iff_prefix] at h2
  have h3 := h2.length_le
  rw [List.length_drop] at h3
  have hm2 : 0 < m.length := List.length_pos.mpr hm
  omega

theorem isInComment_eq_true_iff {line : List Char} {s : ℕ} :
    isInComment line s = true ↔
      ∃ m ∈ commentMarkers, occIdx m (line.take s) ≠ [] := by
  unfold isInComment
  rw [List.any_eq_true]
  constructor
  · rintro ⟨m, hm, hmatch⟩
    refine ⟨m, hm, fun hnil => ?_⟩
    rw [hnil] at hmatch
    simp at hmatch
  · rintro ⟨m, hm, hne⟩
    refine ⟨m, hm, ?_⟩
    obtain ⟨mp, hmp⟩ := Option.isSome_iff_exists.mp
      (List.getLast?_isSome.mpr hne)
    obtain ⟨hcons, heq⟩ := List.mem_getLast?_eq_getLast (Option.mem_def.mpr hmp)
    have hmem : mp ∈ occIdx m (line.take s) :=
      heq.symm ▸ List.getLast_mem hcons
    have hlt : mp < (line.take s).length :=
      occIdx_lt_length (commentMarkers_ne_nil m hm) hmem
    have hts : (line.take s).length ≤ s := by
      rw [List.length_take]; omega
    rw [hmp]
    simp only [decide_eq_true_eq]
    omega

theorem greedySelect_subset {len : ℕ} : ∀ {ps : List ℕ} {minPos t : ℕ},
    t ∈ greedySelect len ps minPos → t ∈ ps := by
  intro ps
  induction ps with
  | nil => intro minPos t h; simp [greedySelect] at h
  | cons p ps ih =>
    intro minPos t h
    rw [greedySelect] at h
    by_cases hc : p < minPos
    · rw [if_pos hc] at h
      exact List.mem_cons_of_mem _ (ih h)
    · rw [if_neg hc] at h
      rcases List.mem_cons.mp h with h | h
      · exact h ▸ List.mem_cons_self _ _
      · exact List.mem_cons_of_mem _ (ih h)

theorem greedySelect_covers {len : ℕ} (hlen : 0 < len) :
    ∀ (ps : List ℕ), ps.Pairwise (· < ·) → ∀ (minPos s : ℕ), s ∈ ps →
      minPos ≤ s → ∃ t ∈ greedySelect len ps minPos, t ≤ s ∧ s < t + len := by
  intro ps
  induction ps with
  | nil => intro _ minPos s h; simp at h
  | cons p ps ih =>
    intro hpw minPos s hs hmin
    obtain ⟨hplt, hpw2⟩ := List.pairwise_cons.mp hpw
    rw [greedySelect]
    by_cases hc : p < minPos
    · rw [if_pos hc]
      rcases List.mem_cons.mp hs with rfl | hs2
      · omega
      · exact ih hpw2 minPos s hs2 hmin
    · rw [if_neg hc]
      rcases List.mem_cons.mp hs with rfl | hs2
      · exact ⟨s, List.mem_cons_self _ _, le_refl _, by omega⟩
      · by_cases hcov : s < p + len
        · exact ⟨p, List.mem_cons_self _ _, le_of_lt (hplt s hs2), hcov⟩
        · obtain ⟨t, ht, h1, h2⟩ := ih hpw2 (p + len) s hs2 (by omega)
          exact ⟨t, List.mem_cons_of_mem _ ht, h1, h2⟩

theorem ciStarts_length_le {pat s : List Char} (h : ciStarts pat s = true) :
    pat.length ≤ s.length := by
  unfold ciStarts at h
  rw [List.isPrefixOf_iff_prefix] at h
  have := h.length_le
  simpa [lowerL] using this

theorem litFind_mem_spans {pat line : List Char} (hp : pat ≠ []) {s e : ℕ}
    (h : (s, e) ∈ litFind pat line) :
    e = s + pat.length ∧ s ≤ line.length ∧ ciStarts pat (line.drop s) = true := by
  cases pat with
  | nil => exact absurd rfl hp
  | cons p ps =>
    simp only [litFind] at h
    rw [List.mem_map] at h
    obtain ⟨t, ht, heq⟩ := h
    have hts := greedySelect_subset ht
    rw [List.mem_filter, List.mem_range] at hts
    obtain ⟨htr, htc⟩ := hts
    obtain ⟨h1, h2⟩ := Prod.mk.injEq .. ▸ heq
    subst h1
    exact ⟨h2.symm, by omega, htc⟩

theorem litFind_covers {pat line : List Char} (hp : pat ≠ []) {s : ℕ}
    (hc : ciStarts pat (line.drop s) = true) :
    ∃ t e, (t, e) ∈ litFind pat line ∧ t ≤ s ∧ s < t + pat.length := by
  have hp2 : 0 < pat.length := List.length_pos.mpr hp
  have hslen : s < line.length := by
    have := ciStarts_length_le hc
    rw [List.length_drop] at this
    omega
  have hmem : s ∈ (List.range (line.length + 1)).filter
      fun i => ciStarts pat (line.drop i) := by
    rw [List.mem_filter, List.mem_range]
    exact ⟨by omega, hc⟩
  have hpw : ((List.range (line.length + 1)).filter
      fun i => ciStarts pat (line.drop i)).Pairwise (· < ·) :=
    (List.pairwise_lt_range _).filter _
  obtain ⟨t, ht, h1, h2⟩ :=
    greedySelect_covers hp2 _ hpw 0 s hmem (Nat.zero_le _)
  refine ⟨t, t + pat.length, ?_, h1, h2⟩
  cases pat with
  | nil => exact absurd rfl hp
  | cons p ps =>
    simp only [litFind]
    rw [List.mem_map]
    exact ⟨t, ht, rfl⟩

theorem ciStarts_extract {pat line : List Char} {s : ℕ}
    (hc : ciStarts pat (line.drop s) = true) :
    lowerL ((line.take (s + pat.length)).drop s) = lowerL pat := by
  unfold ciStarts at hc
  rw [List.isPrefixOf_iff_prefix] at hc
  have hlen : (lowerL pat).length = pat.length := by simp [lowerL]
  have h1 : lowerL pat = (lowerL (line.drop s)).take pat.length := by
    have := List.prefix_iff_eq_take.mp hc
    rwa [hlen] at this
  rw [List.drop_take]
  have h2 : s + pat.length - s = pat.length := by omega
  rw [h2]
  have h3 : lowerL ((line.drop s).take pat.length) =
      (lowerL (line.drop s)).take pat.length := by
    simp [lowerL, List.map_take]
  rw [← h1] at h3
  exact h3

theorem isInComment_mono {line : List Char} {t s : ℕ} (hts : t ≤ s)
    (h : isInComment line t = true) : isInComment line s = true := by
  rw [isInComment_eq_true_iff] at h ⊢
  obtain ⟨m, hm, hne⟩ := h
  refine ⟨m, hm, ?_⟩
  obtain ⟨i, hi⟩ := List.exists_mem_of_ne_nil _ hne
  obtain ⟨hile, hipre⟩ := occIdx_mem hi
  have hto : i ∈ occIdx m (line.take s) := by
    unfold occIdx
    rw [List.mem_filter, List.mem_range]
    have hlen : (line.take t).length ≤ (line.take s).length := by
      simp only [List.length_take]
      omega
    refine ⟨by omega, ?_⟩
    rw [List.isPrefixOf_iff_prefix] at hipre ⊢
    exact hipre.trans
      ((List.take_prefix_take_left line hts).drop i)
  exact List.ne_nil_of_mem hto

/-! ### Claim theorems -/

/-- Claim C6: for a root path that does not exist, `scan_repository` returns
the error dictionary carrying the `Repository path not found` message and
never a ScanResult — so no violations list, no scan summary and no
compliance score are produced. -/
theorem c6_missing_root_error (o : ReOracle) (rules : List Rule) (rp : String)
    (fs : Filesystem) (exts : List String) (h : fs.rootExists = false) :
    scanRepository o rules rp fs exts =
      .failure rp ("Repository path not found: " ++ rp) ∧
    ∀ r, scanRepository o rules rp fs exts ≠ .success r := by
  constructor
  · simp [scanRepository, h]
  · intro r
    simp [scanRepository, h]

theorem c6_missing_root_error_witness :
    scanRepository litOracle [] "no-such-path" ⟨false, []⟩ [] =
      ScanOutput.failure "no-such-path" ("Repository path not found: " ++ "no-such-path") :=
  (c6_missing_root_error litOracle [] "no-such-path" ⟨false, []⟩ [] rfl).1

/-- Claim C9: a rule with an empty `scan_patterns` list and check type
`pattern_match` contributes zero violations on any file content. -/
theorem c9_empty_patterns_zero_violations (o : ReOracle) (content : List Char)
    (fp : String) (rule : Rule) (h1 : rule.scan_patterns = [])
    (h2 : rule.check_type = "pattern_match") :
    applyRuleToFile o content fp rule = [] := by
  unfold applyRuleToFile patternScan
  rw [h1, h2]
  simp

theorem c9_empty_patterns_zero_violations_witness :
    applyRuleToFile litOracle "password = 1".data "f.py" emptyRule = [] :=
  c9_empty_patterns_zero_violations litOracle "password = 1".data "f.py" emptyRule rfl rfl

/-- Claim C7: every function-analysis violation has severity MEDIUM
regardless of the rule's severity; every import-analysis violation has
category `security` and severity LOW regardless of the rule's; and for every
rule the pattern scan over its `scan_patterns` is always a prefix of
`_apply_rule_to_file`'s output — the analyzers only ever add to it. -/
theorem c7_analyzer_fixed_severity :
    (∀ names fp rule, ∀ v ∈ analyzeFunctions names fp rule,
      v.severity = "MEDIUM") ∧
    (∀ names fp rule, ∀ v ∈ analyzeImports names fp rule,
      v.severity = "LOW" ∧ v.category = "security") ∧
    (∀ (o : ReOracle) content fp rule,
      patternScan o content fp rule <+: applyRuleToFile o content fp rule) := by
  refine ⟨?_, ?_, ?_⟩
  · intro names fp rule v hv
    rw [analyzeFunctions, List.mem_filterMap] at hv
    obtain ⟨fn, _, hf⟩ := hv
    by_cases hk : sensitiveKeywords.any fun k => listContains k.data (lowerL fn.data)
    · rw [if_pos hk, Option.some.injEq] at hf
      rw [← hf]
      rfl
    · rw [if_neg hk] at hf
      exact absurd hf (Option.noConfusion)
  · intro names fp rule v hv
    rw [analyzeImports, List.mem_filterMap] at hv
    obtain ⟨m, _, hf⟩ := hv
    by_cases hk : riskyImports.any fun r => listContains r.data (lowerL m.data)
    · rw [if_pos hk, Option.some.injEq] at hf
      rw [← hf]
      exact ⟨rfl, rfl⟩
    · rw [if_neg hk] at hf
      exact absurd hf (Option.noConfusion)
  · intro o content fp rule
    exact ⟨_, rfl⟩

theorem c7_analyzer_fixed_severity_witness :
    funcViolation0.severity = "MEDIUM" ∧
    impViolation0.severity = "LOW" ∧ impViolation0.category = "security" :=
  ⟨c7_analyzer_fixed_severity.1 ["login_user"] "f.py" funcRule funcViolation0 (by decide),
   c7_analyzer_fixed_severity.2.1 ["subprocess"] "f.py" impRule impViolation0 (by decide)⟩

/-- Claim C1 (amended in no way — stated as claimed): severity weighting is
HIGH = 3, MEDIUM = 2, LOW = 1 and 1 for any other string; for a nonempty
scanned-file list the score is `round3 (max 0 (1 - weighted / (10 * files)))`;
one HIGH violation over one scanned file scores 7/10; a scan with zero
scanned files scores 0. -/
theorem c1_compliance_score :
    (severityWeight "HIGH" = 3 ∧ severityWeight "MEDIUM" = 2 ∧
      severityWeight "LOW" = 1) ∧
    (∀ s, s ≠ "HIGH" → s ≠ "MEDIUM" → s ≠ "LOW" → severityWeight s = 1) ∧
    (∀ violations scanned, scanned.length ≠ 0 →
      calculateComplianceScore violations scanned =
        round3 (max 0 (1 - (weightedViolations violations : ℚ) /
          (scanned.length * 10)))) ∧
    (∀ v fr, v.severity = "HIGH" →
      calculateComplianceScore [v] [fr] = 7 / 10) ∧
    (∀ violations, calculateComplianceScore violations [] = 0) := by
  refine ⟨⟨rfl, rfl, rfl⟩, ?_, ?_, ?_, fun _ => rfl⟩
  · intro s h1 h2 h3
    unfold severityWeight
    rw [if_neg h1, if_neg h2, if_neg h3]
  · intro violations scanned h
    unfold calculateComplianceScore
    rw [if_neg h]
  · intro v fr h
    unfold calculateComplianceScore weightedViolations
    simp only [List.map_cons, List.map_nil, List.sum_cons, List.sum_nil, h,
      List.length_cons, List.length_nil]
    norm_num [severityWeight, round3, roundHalfEven]

theorem c1_compliance_score_witness :
    severityWeight "CRITICAL" = 1 ∧
    calculateComplianceScore [vHigh] [oneFileResult] = 7 / 10 ∧
    calculateComplianceScore [vHigh] [] = 0 ∧
    calculateComplianceScore [vHigh] [oneFileResult] =
      round3 (max 0 (1 - (weightedViolations [vHigh] : ℚ) / (1 * 10))) :=
  ⟨c1_compliance_score.2.1 "CRITICAL" (by decide) (by decide) (by decide),
   c1_compliance_score.2.2.2.1 vHigh oneFileResult rfl,
   c1_compliance_score.2.2.2.2 [vHigh],
   c1_compliance_score.2.2.1 [vHigh] [oneFileResult] (by decide)⟩

/-- Counterexample to claim C8: the hardcoded default index lists `auth`
under `security`, but no default rule carries `auth` among its
`scan_patterns`, so the index is not the union of the three rules' patterns;
moreover a failing producer propagates its error instead of falling back to
the defaults. -/
theorem c8_counterexample :
    "auth" ∈ (defaultScanPatterns.lookup "security").getD [] ∧
    "auth" ∉ rulesUnionPatterns "security" ∧
    loadComplianceRules (some (.error "producer failure")) ≠
      .ok (defaultComplianceRules, defaultScanPatterns) := by
  refine ⟨by decide, by decide, ?_⟩
  intro h
  exact Except.noConfusion h

/-- Claim C8 as amended: with no producer the scanner falls back to exactly
the three built-in rules (`security`/HIGH, `data_protection`/HIGH,
`compliance`/MEDIUM), and to a hardcoded category index that contains every
pattern of the rules of its category but strictly extends that union; a
producer failure propagates (no fallback), and a successful producer's rules
and index are used verbatim. -/
theorem c8_default_ruleset :
    loadComplianceRules none = .ok (defaultComplianceRules, defaultScanPatterns) ∧
    (defaultComplianceRules.map fun r => (r.category, r.severity)) =
      [("security", "HIGH"), ("data_protection", "HIGH"), ("compliance", "MEDIUM")] ∧
    (∀ cp ∈ defaultScanPatterns, ∀ p ∈ rulesUnionPatterns cp.1, p ∈ cp.2) ∧
    (∀ cp ∈ defaultScanPatterns, ∃ q ∈ cp.2, q ∉ rulesUnionPatterns cp.1) ∧
    (∀ e, loadComplianceRules (some (.error e)) = .error e) ∧
    (∀ d, loadComplianceRules (some (.ok d)) = .ok (d.rules, d.scan_patterns)) :=
  ⟨rfl, by decide, by decide, by decide, fun _ => rfl, fun _ => rfl⟩

theorem c8_default_ruleset_witness :
    "password" ∈ ["password", "pwd", "passwd", "auth", "token"] ∧
    ∃ q ∈ ["password", "pwd", "passwd", "auth", "token"],
      q ∉ rulesUnionPatterns "security" :=
  ⟨c8_default_ruleset.2.2.1 ("security", ["password", "pwd", "passwd", "auth", "token"])
     (by decide) "password" (by decide),
   c8_default_ruleset.2.2.2.1 ("security", ["password", "pwd", "passwd", "auth", "token"])
     (by decide)⟩

/-- Claim C4, behaviour of the code at the failing input: scanning a tree
with an unreadable `broken.py` and a readable `ok.py` produces no
`"scan_error"` violation at all — `_scan_file` swallows the read failure and
returns `None`, the per-file loop skips the file, and the `"scan_error"`
branch of `scan_repository` never fires.  The unreadable file is silently
absent from the result while the other file is scanned normally. -/
theorem c4_unreadable_file_dropped :
    ∃ r, scanRepository litOracle defaultComplianceRules "repo" c4fs [".py"] =
        .success r ∧
      r.scanned_files.map FileResults.file_path = ["ok.py"] ∧
      r.violations.length = 1 ∧
      ∀ v ∈ r.violations, v.file_path = "ok.py" ∧ v.isScanError = false := by
  refine ⟨_, rfl, ?_, ?_, ?_⟩ <;> decide

/-- Counterexample to claim C5: a tree whose only file lies under the
`.git` metadata directory still gets that file scanned — it appears in the
scanned-files list and contributes a violation, so version-control
directories are not pruned from traversal. -/
theorem c5_counterexample :
    ".git" ∈ gitFile.dirs ∧
    ∃ r, scanRepository litOracle defaultComplianceRules "repo" c5fs
        defaultExtensions = .success r ∧
      r.scanned_files.map FileResults.file_path = [".git/hooks/pre.py"] ∧
      r.violations.length = 1 ∧
      ∀ v ∈ r.violations, v.file_path = ".git/hooks/pre.py" := by
  refine ⟨by decide, _, rfl, ?_, ?_, ?_⟩ <;> decide

/-- Claim C5 as amended: no directory is pruned from traversal — membership
of a file in the discovered list depends only on its name's extension, so a
file under a version-control metadata directory such as `.git` is scanned
and contributes violations like any other file. -/
theorem c5_no_vcs_pruning (fs : Filesystem) (exts : List String) (f : SFile)
    (e : String) (h1 : f ∈ fs.files) (h2 : e ∈ exts)
    (h3 : endsWithExt e f = true) : f ∈ discoveredFiles fs exts := by
  unfold discoveredFiles
  rw [List.mem_flatMap]
  exact ⟨e, h2, List.mem_filter.mpr ⟨h1, h3⟩⟩

theorem c5_no_vcs_pruning_witness :
    gitFile ∈ discoveredFiles c5fs defaultExtensions :=
  c5_no_vcs_pruning c5fs defaultExtensions gitFile ".py" (by decide) (by decide)
    (by decide)

/-- Claim C2: every violation the pattern matcher emits comes from a match
whose preceding substring on its line contains none of the comment markers —
a match with a marker in its prefix produces no violation (the rightmost
occurrence of a marker in that prefix is always before the match start,
since the prefix ends there); concretely, `# password = "x"` yields zero
violations for pattern `password` and `password = "x"` yields exactly one. -/
theorem c2_comment_suppression :
    (∀ (matcher : List Char → List (ℕ × ℕ)) content fp pat rid cat sev desc,
      ∀ v ∈ findPatternViolationsM matcher content fp pat rid cat sev desc,
        ∃ i line s e, (i, line) ∈ enumLines 1 (splitNl content) ∧
          (s, e) ∈ matcher line ∧
          (∀ m ∈ commentMarkers, occIdx m (line.take s) = []) ∧
          v = mkPatternViolation fp rid cat sev desc pat i line s e) ∧
    findPatternViolations litOracle "# password = \"x\"".data "f.py" "password"
      "security_001" "security" "HIGH" "Passwords should not be hardcoded" = [] ∧
    (findPatternViolations litOracle "password = \"x\"".data "f.py" "password"
      "security_001" "security" "HIGH" "Passwords should not be hardcoded").length
      = 1 := by
  refine ⟨?_, by decide, by decide⟩
  intro matcher content fp pat rid cat sev desc v hv
  obtain ⟨i, line, s, e, h1, h2, h3, h4⟩ := mem_findPatternViolationsM.mp hv
  refine ⟨i, line, s, e, h1, h2, ?_, h4⟩
  intro m hm
  by_contra hne
  have hc : isInComment line s = true := isInComment_eq_true_iff.mpr ⟨m, hm, hne⟩
  rw [h3] at hc
  exact Bool.noConfusion hc

theorem c2_comment_suppression_witness :
    ∃ i line s e, (i, line) ∈ enumLines 1 (splitNl "password = \"x\"".data) ∧
      (s, e) ∈ litFind "password".data line ∧
      (∀ m ∈ commentMarkers, occIdx m (line.take s) = []) ∧
      pwViolation = mkPatternViolation "f.py" "security_001" "security" "HIGH"
        "Passwords should not be hardcoded" "password" i line s e :=
  c2_comment_suppression.1 (fun line => litFind "password".data line)
    "password = \"x\"".data "f.py" "password" "security_001" "security" "HIGH"
    "Passwords should not be hardcoded" pwViolation (by decide)

/-- Claim C10: every pattern-match violation produced from well-formed
matcher spans satisfies `column_start ≤ column_end`, its `matched_text` is
the slice of the original (untrimmed) source line from `column_start` to
`column_end`, and its `line_number` lies between 1 and the number of lines
of the content. -/
theorem c10_pattern_violation_invariants
    (matcher : List Char → List (ℕ × ℕ)) (content : List Char)
    (fp pat rid cat sev desc : String)
    (hw : ∀ line ∈ splitNl content, ∀ se ∈ matcher line, se.1 ≤ se.2) :
    ∀ v ∈ findPatternViolationsM matcher content fp pat rid cat sev desc,
      v.column_start ≤ v.column_end ∧
      1 ≤ v.line_number ∧ v.line_number ≤ (splitNl content).length ∧
      ∃ line, (splitNl content).get? (v.line_number - 1) = some line ∧
        v.matched_text = (line.take v.column_end).drop v.column_start := by
  intro v hv
  obtain ⟨i, line, s, e, h1, h2, h3, rfl⟩ := mem_findPatternViolationsM.mp hv
  obtain ⟨k, hk, hik, hget⟩ := mem_enumLines_iff.mp h1
  have hline : line ∈ splitNl content := List.get?_mem hget
  have hse : s ≤ e := hw line hline (s, e) h2
  have e1 : (mkPatternViolation fp rid cat sev desc pat i line s e).column_start
      = s := rfl
  have e2 : (mkPatternViolation fp rid cat sev desc pat i line s e).column_end
      = e := rfl
  have e3 : (mkPatternViolation fp rid cat sev desc pat i line s e).line_number
      = i := rfl
  have e4 : (mkPatternViolation fp rid cat sev desc pat i line s e).matched_text
      = (line.take e).drop s := rfl
  rw [e1, e2, e3, e4]
  refine ⟨hse, by omega, by omega, line, ?_, rfl⟩
  have : i - 1 = k := by omega
  rw [this]
  exact hget

theorem c10_pattern_violation_invariants_witness :
    pwdViolation.column_start ≤ pwdViolation.column_end ∧
    1 ≤ pwdViolation.line_number ∧
    pwdViolation.line_number ≤ (splitNl "pwd = 1".data).length ∧
    ∃ line, (splitNl "pwd = 1".data).get? (pwdViolation.line_number - 1)
        = some line ∧
      pwdViolation.matched_text =
        (line.take pwdViolation.column_end).drop pwdViolation.column_start :=
  c10_pattern_violation_invariants (fun line => litFind "pwd".data line)
    "pwd = 1".data "f.py" "pwd" "r" "security" "HIGH" "d" (by decide)
    pwdViolation (by decide)

/-- Claim C3: when the pattern does not compile as a regular expression,
`_find_pattern_violations` falls back to matching it as a case-insensitive
literal string (independently of the regex engine, raising nothing): the
output equals the literal-matcher run, every emitted violation's matched
text is a case-insensitive copy of the pattern, and every occurrence of the
literal pattern whose line prefix carries no comment marker still yields a
violation covering it. -/
theorem c3_invalid_regex_literal_fallback (o : ReOracle) (content : List Char)
    (fp pat rid cat sev desc : String) (hfail : o.compiles pat = false)
    (hne : pat.data ≠ []) :
    (findPatternViolations o content fp pat rid cat sev desc =
      findPatternViolationsM (fun line => litFind pat.data line) content fp pat
        rid cat sev desc) ∧
    (∀ v ∈ findPatternViolations o content fp pat rid cat sev desc,
      lowerL v.matched_text = lowerL pat.data) ∧
    (∀ i line s, (i, line) ∈ enumLines 1 (splitNl content) →
      ciStarts pat.data (line.drop s) = true → isInComment line s = false →
      ∃ v ∈ findPatternViolations o content fp pat rid cat sev desc,
        v.line_number = i ∧ v.column_start ≤ s ∧
        s < v.column_start + pat.data.length) := by
  have hA : findPatternViolations o content fp pat rid cat sev desc =
      findPatternViolationsM (fun line => litFind pat.data line) content fp pat
        rid cat sev desc := by
    unfold findPatternViolations
    rw [hfail]
    simp
  refine ⟨hA, ?_, ?_⟩
  · intro v hv
    rw [hA] at hv
    obtain ⟨i, line, s, e, h1, h2, h3, rfl⟩ := mem_findPatternViolationsM.mp hv
    obtain ⟨he, hsl, hci⟩ := litFind_mem_spans hne h2
    have e4 : (mkPatternViolation fp rid cat sev desc pat i line s e).matched_text
        = (line.take e).drop s := rfl
    rw [e4, he]
    exact ciStarts_extract hci
  · intro i line s h1 hci hcomm
    obtain ⟨t, e, hte, hts, hcov⟩ := litFind_covers hne hci
    have htcomm : isInComment line t = false := by
      cases hb : isInComment line t with
      | false => rfl
      | true =>
        have hmono := isInComment_mono hts hb
        rw [hcomm] at hmono
        exact Bool.noConfusion hmono
    refine ⟨mkPatternViolation fp rid cat sev desc pat i line t e, ?_, rfl,
      hts, hcov⟩
    rw [hA]
    exact mem_findPatternViolationsM.mpr ⟨i, line, t, e, h1, hte, htcomm, rfl⟩

theorem c3_invalid_regex_literal_fallback_witness :
    (findPatternViolations failOracle "x = password[0]".data "f.py" "password["
        "r" "security" "HIGH" "d" =
      findPatternViolationsM (fun line => litFind "password[".data line)
        "x = password[0]".data "f.py" "password[" "r" "security" "HIGH" "d") ∧
    ∃ v ∈ findPatternViolations failOracle "x = password[0]".data "f.py"
        "password[" "r" "security" "HIGH" "d",
      v.line_number = 1 ∧ v.column_start ≤ 4 ∧
      4 < v.column_start + "password[".data.length :=
  ⟨(c3_invalid_regex_literal_fallback failOracle "x = password[0]".data "f.py"
      "password[" "r" "security" "HIGH" "d" rfl (by decide)).1,
   (c3_invalid_regex_literal_fallback failOracle "x = password[0]".data "f.py"
      "password[" "r" "security" "HIGH" "d" rfl (by decide)).2.2 1
     "x = password[0]".data 4 (by decide) (by decide) (by decide)⟩

end RepoScanner
